import Mathlib

/-
Verification of the Roche-geometry engine and curve pipeline of the elisa
repository against its natural-language specification.

Shallow embedding conventions:
- Python floats are modelled as exact rationals (for decision logic) or
  reals (for expressions involving pi, sqrt and trigonometry).
- numpy float exponent `t ** 1.5` on a nonnegative base is `Real.sqrt t ^ 3`.
- fallible code (raise) is modelled with Except; the pair returned by the
  generic solver is modelled as Option x Bool where None stands for np.nan.
-/

namespace Elisa

/-! ### C1: morphology classifier, synchronous circular branch
    Source: engine/binary_system.py, _estimate_morphology. -/

/-- Outcome of the synchronous-circular branch of _estimate_morphology:
either a morphology string, a raised ValueError, or the implicit None that
Python returns when the if/elif chain falls through. -/
inductive MorphologyOutcome where
  | detached
  | semiDetached
  | overContact
  | valueError
  | noResult
deriving DecidableEq

/-- Tolerance PRECISSION = 1e-8 from _estimate_morphology. -/
def PRECISSION : ℚ := 1 / 100000000

/-- Filling factor (Omega(L1) - Omega) / (Omega(L1) - Omega(L2)) as computed in
_estimate_morphology from libration_potentials lp: (lp[1] - surface_potential) / (lp[1] - lp[2]). -/
def filling_factor (omega_L1 omega_L2 omega : ℚ) : ℚ :=
  (omega_L1 - omega) / (omega_L1 - omega_L2)

/-- Decision logic of the synchronous circular branch (F1 = F2 = 1, e = 0) of
_estimate_morphology, as a function of the two filling factors.  Mirrors the
source line by line: first the unequal-potential-contact guard
`((1 > sff > 0) or (1 > pff > 0)) and (pff - sff > PRECISSION)`, then the
factor-above-one guard, then the semi-detached / detached / over-contact
chain, with the unreachable final elif and the implicit None fallthrough. -/
def estimate_morphology_sync (pff sff : ℚ) : MorphologyOutcome :=
  if ((1 > sff ∧ sff > 0) ∨ (1 > pff ∧ pff > 0)) ∧ pff - sff > PRECISSION then
    MorphologyOutcome.valueError
  else if pff > 1 ∨ sff > 1 then
    MorphologyOutcome.valueError
  else if (|pff| < PRECISSION ∧ sff < 0) ∨ (pff < 0 ∧ |sff| < PRECISSION) then
    MorphologyOutcome.semiDetached
  else if pff < 0 ∧ sff < 0 then
    MorphologyOutcome.detached
  else if 1 ≥ pff ∧ pff > 0 then
    MorphologyOutcome.overContact
  else if pff > 1 ∨ sff > 1 then
    MorphologyOutcome.valueError
  else
    MorphologyOutcome.noResult

/-! ### C5: eccentricity setter.  Source: engine/binary_system.py, eccentricity. -/

/-- Eccentricity setter of BinarySystem: raises unless the guard
`eccentricity < 0 or eccentricity > 1` is false (the isinstance part of the
guard is a Python type test with no counterpart for a rational argument). -/
def eccentricity_set (e : ℚ) : Except String ℚ :=
  if e < 0 ∨ e > 1 then
    Except.error "Input of variable eccentricity is not int or float or it is out of boundaries."
  else
    Except.ok e

/-! ### C6: JSON schema validation.
    Source: src/elisa/binary_system/utils.py, validate_binary_json. -/

/-- Errors raised by validate_binary_json. -/
inductive BinaryJsonError where
  | validationError
  | youHaveNoIdeaError
deriving DecidableEq

/-- Decision logic of validate_binary_json given the outcomes of the two
jsonschema validations (standard and community schemas are external data;
their validation verdicts enter as booleans). -/
def validate_binary_json (std_valid community_valid : Bool) : Except BinaryJsonError Bool :=
  if !community_valid && !std_valid then
    Except.error BinaryJsonError.validationError
  else if community_valid && std_valid then
    Except.error BinaryJsonError.youHaveNoIdeaError
  else
    Except.ok true

/-! ### C10: Star.gravity_darkening property.  Source: engine/star.py. -/

/-- Error raised by the gravity_darkening setter. -/
inductive StarError where
  | valueError
deriving DecidableEq

/-- Relevant attributes of a Star instance.  Field names mirror the private
attributes of engine/star.py: backward_radius for _backward_radius,
gravity_darkening_attr for _gravity_darkening (set to None in the
constructor and never written by the setter), gravity_darkenings for the
_gravity_darkenings attribute the setter creates. -/
structure StarState where
  backward_radius : Option ℚ
  gravity_darkening_attr : Option ℚ
  gravity_darkenings : Option ℚ
deriving DecidableEq

/-- Getter of the gravity_darkening property: the source returns
self._backward_radius. -/
def gravity_darkening_get (s : StarState) : Option ℚ :=
  s.backward_radius

/-- Setter of the gravity_darkening property: on 0 <= g <= 1 it assigns
self._gravity_darkenings (note the trailing s), otherwise it raises ValueError. -/
def gravity_darkening_set (s : StarState) (g : ℚ) : Except StarError StarState :=
  if 0 ≤ g ∧ g ≤ 1 then
    Except.ok { s with gravity_darkenings := some g }
  else
    Except.error StarError.valueError

/-! ### Shared numpy helpers -/

/-- numpy.linspace with endpoint=True: num samples, the i-th being
a + (b - a) * i / (num - 1); for num = 1 the single sample is a. -/
def np_linspace {α : Type} [Field α] (a b : α) (num : ℕ) : List α :=
  List.map (fun i : ℕ => a + (b - a) * (i : α) / ((num : α) - 1)) (List.range num)

/-- numpy.linspace with endpoint=False: num samples, the i-th being
a + (b - a) * i / num. -/
noncomputable def np_linspace_open (a b : ℝ) (num : ℕ) : List ℝ :=
  List.map (fun i : ℕ => a + (b - a) * (i : ℝ) / (num : ℝ)) (List.range num)

/-! ### C3: equipotential solution acceptance.
    Source: engine/binary_system.py, solver, calculate_polar_radius,
    calculate_side_radius.  The scipy.optimize.fsolve call (xtol 1e-12) is
    abstracted into its outcome: a flag fsolve_converged standing for
    `ier == 1 and not isnan(solution[0])`, and the candidate solution. -/

/-- Acceptance flag of the generic solver after fsolve: the source line is
`use = True if 1 > solution > 0 else False`. -/
def solver_use (fsolve_converged : Bool) (sol : ℚ) : Bool :=
  fsolve_converged && decide (1 > sol ∧ sol > 0)

/-- Generic solver of BinarySystem: returns (solution, use); when the
user-supplied condition rejects, the sentinel (np.nan, False) is returned,
modelled as (none, false). -/
def solver (fsolve_converged : Bool) (sol : ℚ) (condition : ℚ → Bool) :
    Option ℚ × Bool :=
  if condition sol then (some sol, solver_use fsolve_converged sol)
  else (none, false)

/-- Acceptance check shared by calculate_polar_radius and
calculate_side_radius: the source line is
`if ier == 1 and not np.isnan(solution[0]) and 30 >= solution[0] >= 0`. -/
def radius_solution_check (fsolve_converged : Bool) (sol : ℚ) : Bool :=
  fsolve_converged && decide (30 ≥ sol ∧ sol ≥ 0)

/-- calculate_polar_radius: returns the accepted root or raises ValueError. -/
def calculate_polar_radius (fsolve_converged : Bool) (sol : ℚ) : Except String ℚ :=
  if radius_solution_check fsolve_converged sol then Except.ok sol
  else Except.error "Invalid value of polar radius was calculated."

/-- calculate_side_radius: identical acceptance logic (the source even reuses
the polar-radius error message). -/
def calculate_side_radius (fsolve_converged : Bool) (sol : ℚ) : Except String ℚ :=
  if radius_solution_check fsolve_converged sol then Except.ok sol
  else Except.error "Invalid value of polar radius was calculated."

/-- Acceptance region claimed by the specification, written from the words of
the spec for comparison with the code: the root must lie strictly inside
the open interval (0, min(30, physical lobe bound)). -/
def claimed_acceptance_region (lobe_bound sol : ℚ) : Prop :=
  0 < sol ∧ sol < min 30 lobe_bound

/-! ### C4: primary-frame Roche potential.
    Source: engine/binary_system.py, potential_value_primary. -/

/-- Modified Kopal potential seen from the primary component in spherical
coordinates; blocks a, b, c, d follow the source expression with
mass_ratio = q and synchronicity = F1. -/
noncomputable def potential_value_primary
    (mass_ratio synchronicity radius d phi theta : ℝ) : ℝ :=
  1 / radius
    + mass_ratio /
        Real.sqrt (d ^ 2 + radius ^ 2 - 2 * radius * Real.cos phi * Real.sin theta * d)
    - mass_ratio * radius * Real.cos phi * Real.sin theta / d ^ 2
    + 1 / 2 * synchronicity ^ 2 * (1 + mass_ratio) * radius ^ 2
        * (1 - Real.cos theta ^ 2)

/-! ### C7: polygon clipping degeneracy.
    Source: pypex/poly2d/polygon.py (Polygon.intersection, surface_area) and
    src/elisa/binary_system/utils.py (pypex_poly_surface_area). -/

/-- Point of the sky plane used by the pypex clipper. -/
abbrev PypexPoint := ℚ × ℚ

/-- Modelled from the spec: Point.set, whose source file is not among the
sources, removes duplicate points (points equal up to the rounding
tolerance are considered the same); modelled as exact deduplication. -/
def point_set_dedup (pts : List PypexPoint) : List PypexPoint :=
  pts.dedup

/-- Final assembly step of Polygon.intersection: the clipped candidate points
(corners of either polygon inside the other plus edge intersections, a
computation whose helper modules are not among the sources) are
deduplicated, and a polygon is returned only when more than two distinct
points remain; otherwise the result is None. -/
def intersection_of_candidates (candidates : List PypexPoint) :
    Option (List PypexPoint) :=
  let ip := point_set_dedup candidates
  if ip.length > 2 then some ip else none

/-- Shoelace area of Polygon.surface_area: pairs each hull vertex with its
cyclic successor (numpy.roll by -1) and takes half the absolute sum of
cross terms. -/
def surface_area (hull : List PypexPoint) : ℚ :=
  1 / 2 * |(List.zipWith (fun p1 p2 => p1.1 * p2.2 - p2.1 * p1.2)
      hull (hull.rotateLeft 1)).sum|

/-- pypex_poly_surface_area: maps None intersection entries to area 0.0. -/
def pypex_poly_surface_area (polys : List (Option (List PypexPoint))) : List ℚ :=
  polys.map fun p =>
    match p with
    | some poly => surface_area poly
    | none => 0

/-! ### C8: phase-span test for eccentric approximations.
    Source: src/elisa/binary_system/curves/curves.py,
    produce_ecc_curves_no_spots. -/

/-- Span test `np.max(phases) - np.min(phases) >= 0.8` deciding whether the
apsidal-line symmetry approximations may be attempted at all. -/
def phases_span_test (phases : List ℚ) : Bool :=
  match phases.max?, phases.min? with
  | some mx, some mn => decide (mx - mn ≥ 8/10)
  | _, _ => false

/-- Approximation modes of the eccentric spot-free curve pipeline. -/
inductive ApproxMode where
  | zero
  | one
  | two
  | three
deriving DecidableEq

/-- Modelled from the spec: resolve_ecc_approximation_method lives in the
c_approx module, which is not among the sources.  Per the specification the
apsidal-line symmetry approximations (interpolation, mode one, and
geometry-copy, mode two) are considered only when approximations are
enabled and the phase set spans at least 0.8 of the orbit; the similarity
approximation (mode three) has no span requirement; otherwise the exact
mode zero runs. -/
def resolve_ecc_approximation_method
    (try_to_find_appx span_test appx_one_ok appx_two_ok appx_three_ok : Bool) :
    ApproxMode :=
  if try_to_find_appx && span_test && appx_one_ok then ApproxMode.one
  else if try_to_find_appx && span_test && appx_two_ok then ApproxMode.two
  else if try_to_find_appx && appx_three_ok then ApproxMode.three
  else ApproxMode.zero

/-! ### C9: spot ring generation.
    Source: engine/binary_system.py, _evaluate_spots, where
    alpha = spot angular_density, diameter = spot angular_diameter and x0 is
    the chord between the spot centre and the first ring point. -/

/-- Number of latitude steps: `num_radial = int((diameter * 0.5) // alpha)`;
Python floor division followed by int() is the mathematical floor. -/
noncomputable def spot_num_radial (angular_diameter alpha : ℝ) : ℤ :=
  ⌊angular_diameter * (1 / 2) / alpha⌋

/-- Ring latitudes: `np.linspace(lat, lat + (diameter * 0.5), num=num_radial,
endpoint=True)`; entry 0 is the spot centre. -/
noncomputable def spot_thetas (lat angular_diameter alpha : ℝ) : List ℝ :=
  np_linspace lat (lat + angular_diameter * (1 / 2))
    (spot_num_radial angular_diameter alpha).toNat

/-- Azimuthal point count per ring:
`[1 if i == 0 else int(i * 2.0 * np.pi * x0 // x0) for i in range(len(thetas))]`. -/
noncomputable def spot_num_azimuthal (x0 : ℝ) (i : ℕ) : ℤ :=
  if i = 0 then 1 else ⌊(i : ℝ) * 2 * Real.pi * x0 / x0⌋

/-- Ring azimuths: `np.linspace(0, c.FULL_ARC, num=num, endpoint=False)` with
FULL_ARC = 2 pi. -/
noncomputable def spot_rot_angles (x0 : ℝ) (i : ℕ) : List ℝ :=
  np_linspace_open 0 (2 * Real.pi) (spot_num_azimuthal x0 i).toNat

/-! ### C2: Lagrangian points.
    Source: engine/binary_system.py, lagrangian_points. -/

/-- Periastron distance in units of the semi-major axis. -/
def periastron_distance (e : ℝ) : ℝ := 1 - e

/-- Scan grid of lagrangian_points:
`np.linspace(-periastron_distance * 3.0, periastron_distance * 3.0, 100)`. -/
noncomputable def lagrangian_scan_xs (e : ℝ) : List ℝ :=
  np_linspace (-(periastron_distance e * 3)) (periastron_distance e * 3) 100

/-- numpy float exponentiation `t ** 1.5` for a nonnegative base t. -/
noncomputable def float_pow_three_halves (t : ℝ) : ℝ :=
  Real.sqrt t ^ 3

/-- Derivative along x of the synchronous circular potential used by
lagrangian_points:
`- x / (x**2) ** 1.5 + q * (d - x) / ((d - x)**2) ** 1.5 + (q + 1) * x - q / d**2`. -/
noncomputable def potential_dx (q d x : ℝ) : ℝ :=
  -(x / float_pow_three_halves (x ^ 2))
    + q * (d - x) / float_pow_three_halves ((d - x) ^ 2)
    + (q + 1) * x - q / d ^ 2

/-- Root of potential_dx accepted by lagrangian_points: the scan skips seeds
where potential_dx raises a division error, and an accepted fsolve solution
must evaluate without error, so x = 0 and x = d are excluded; the rounding
tolerances (5 decimals for deduplication, 4 for the residual test) are
idealised to exact roots. -/
def IsLagrangeRoot (q d x : ℝ) : Prop :=
  potential_dx q d x = 0 ∧ x ≠ 0 ∧ x ≠ d

/-- Triple returned by lagrangian_points: three distinct accepted roots,
listed in ascending order when the mass ratio is below 1 and in descending
order otherwise (`sorted(lagrange) if self.mass_ratio < 1.0 else
sorted(lagrange, reverse=True)`). -/
def ReturnedLagrangeTriple (q d a b c : ℝ) : Prop :=
  IsLagrangeRoot q d a ∧ IsLagrangeRoot q d b ∧ IsLagrangeRoot q d c ∧
  a ≠ b ∧ a ≠ c ∧ b ≠ c ∧
  ((q < 1 ∧ a < b ∧ b < c) ∨ (1 ≤ q ∧ b < a ∧ c < b))

end Elisa

namespace Elisa

/-! ## Theorems -/

/-! ### Helper lemmas for the morphology classifier (C1) -/

lemma precission_pos : (0:ℚ) < PRECISSION := by norm_num [PRECISSION]

lemma precission_lt_one : PRECISSION < 1 := by norm_num [PRECISSION]

lemma morph_detached_of (p s : ℚ) (hp : p ≤ -PRECISSION) (hs : s ≤ -PRECISSION) :
    estimate_morphology_sync p s = MorphologyOutcome.detached := by
  have hε := precission_pos
  unfold estimate_morphology_sync
  split_ifs with h1 h2 h3 h4 h5
  · rcases h1 with ⟨h1a | h1a, _⟩ <;> linarith [h1a.2]
  · rcases h2 with h | h <;> linarith
  · rcases h3 with ⟨ha, _⟩ | ⟨_, hb⟩
    · have := abs_lt.mp ha; linarith [this.1]
    · have := abs_lt.mp hb; linarith [this.1]
  · rfl
  · exact absurd ⟨by linarith, by linarith⟩ h4
  · exact absurd ⟨by linarith, by linarith⟩ h4

lemma morph_semi_left_of (p s : ℚ) (hpl : -PRECISSION < p) (hp0 : p ≤ 0)
    (hs : s ≤ -PRECISSION) :
    estimate_morphology_sync p s = MorphologyOutcome.semiDetached := by
  have hε := precission_pos
  have habs : |p| < PRECISSION := abs_lt.mpr ⟨hpl, by linarith⟩
  unfold estimate_morphology_sync
  split_ifs with h1 h2 h3 h4 h5
  · rcases h1 with ⟨h1a | h1a, _⟩ <;> linarith [h1a.2]
  · rcases h2 with h | h <;> linarith
  · rfl
  · exact absurd (Or.inl ⟨habs, by linarith⟩) h3
  · exact absurd (Or.inl ⟨habs, by linarith⟩) h3
  · exact absurd (Or.inl ⟨habs, by linarith⟩) h3

lemma morph_semi_right_of (p s : ℚ) (hp : p ≤ -PRECISSION) (hs : |s| < PRECISSION) :
    estimate_morphology_sync p s = MorphologyOutcome.semiDetached := by
  have hε := precission_pos
  have hε1 := precission_lt_one
  have hs' := abs_lt.mp hs
  unfold estimate_morphology_sync
  split_ifs with h1 h2 h3 h4 h5
  · rcases h1 with ⟨_, h1b⟩; linarith [hs'.1]
  · rcases h2 with h | h <;> linarith [hs'.2]
  · rfl
  · exact absurd (Or.inr ⟨by linarith, hs⟩) h3
  · exact absurd (Or.inr ⟨by linarith, hs⟩) h3
  · exact absurd (Or.inr ⟨by linarith, hs⟩) h3

lemma morph_overcontact_of (p s : ℚ) (hp0 : 0 < p) (hp1 : p ≤ 1)
    (hsl : PRECISSION ≤ s) (hs1 : s ≤ 1) (hps : p - s ≤ PRECISSION) :
    estimate_morphology_sync p s = MorphologyOutcome.overContact := by
  have hε := precission_pos
  unfold estimate_morphology_sync
  split_ifs with h1 h2 h3 h4 h5
  · rcases h1 with ⟨_, h1b⟩; linarith
  · rcases h2 with h | h <;> linarith
  · rcases h3 with ⟨_, hb⟩ | ⟨ha, _⟩ <;> linarith
  · rcases h4 with ⟨ha, _⟩; linarith
  · rfl
  · exact absurd ⟨hp1, hp0⟩ h5

lemma morph_reject_left_of (p s : ℚ) (hp0 : 0 < p) (hp1 : p < 1)
    (hps : p - s > PRECISSION) :
    estimate_morphology_sync p s = MorphologyOutcome.valueError := by
  unfold estimate_morphology_sync
  split_ifs with h1 h2 h3 h4 h5 <;>
    first
      | rfl
      | exact absurd ⟨Or.inr ⟨hp1, hp0⟩, hps⟩ h1

lemma morph_reject_right_of (p s : ℚ) (hs0 : 0 < s) (hs1 : s < 1)
    (hps : p - s > PRECISSION) :
    estimate_morphology_sync p s = MorphologyOutcome.valueError := by
  unfold estimate_morphology_sync
  split_ifs with h1 h2 h3 h4 h5 <;>
    first
      | rfl
      | exact absurd ⟨Or.inl ⟨hs1, hs0⟩, hps⟩ h1

lemma morph_reject_pgt1_of (p s : ℚ) (hp : 1 < p) :
    estimate_morphology_sync p s = MorphologyOutcome.valueError := by
  unfold estimate_morphology_sync
  split_ifs with h1 h2 h3 h4 h5 <;>
    first
      | rfl
      | exact absurd (Or.inl hp) h2

lemma morph_reject_sgt1_of (p s : ℚ) (hs : 1 < s) :
    estimate_morphology_sync p s = MorphologyOutcome.valueError := by
  unfold estimate_morphology_sync
  split_ifs with h1 h2 h3 h4 h5 <;>
    first
      | rfl
      | exact absurd (Or.inr hs) h2

/-- C1 counterexample: with libration potentials Omega(L1) = 4, Omega(L2) = 2,
primary surface potential 3 and secondary surface potential 5/2, the filling
factors are 1/2 and 3/4: both are strictly positive and the two potentials
differ, yet the classifier answers over-contact instead of raising; swapping
the two components raises.  This refutes both the claimed rejection of every
unequal-potential contact and the claimed symmetry of the decision in the
primary and secondary components. -/
theorem morphology_sync_counterexample :
    filling_factor 4 2 3 = 1/2 ∧ filling_factor 4 2 (5/2) = 3/4 ∧
    (0:ℚ) < 1/2 ∧ (0:ℚ) < 3/4 ∧ ((3:ℚ) ≠ 5/2) ∧ ((1/2 : ℚ) ≠ 3/4) ∧
    estimate_morphology_sync (1/2) (3/4) = MorphologyOutcome.overContact ∧
    estimate_morphology_sync (3/4) (1/2) = MorphologyOutcome.valueError := by
  refine ⟨by norm_num [filling_factor], by norm_num [filling_factor], by norm_num,
    by norm_num, by norm_num, by norm_num, ?_, ?_⟩ <;>
    norm_num [estimate_morphology_sync, PRECISSION]

/-- C1 (amended): in the synchronous circular branch, with p and s the primary
and secondary filling factors and PRECISSION = 1e-8, the classifier returns
detached when both factors are at most -PRECISSION; semi-detached when the
primary factor lies in (-PRECISSION, 0] and the secondary is at most
-PRECISSION, or when the primary is at most -PRECISSION and the secondary is
within PRECISSION of zero; over-contact whenever 0 < p <= 1,
PRECISSION <= s <= 1 and p - s <= PRECISSION, equality of the two factors
not being required; it raises when some factor lies in (0, 1) and p exceeds
s by more than PRECISSION, or when either factor exceeds 1.  The rejection
test compares only p - s, so the decision is not symmetric in the
components. -/
theorem morphology_sync_amended (p s : ℚ) :
    (p ≤ -PRECISSION → s ≤ -PRECISSION →
      estimate_morphology_sync p s = MorphologyOutcome.detached) ∧
    (-PRECISSION < p → p ≤ 0 → s ≤ -PRECISSION →
      estimate_morphology_sync p s = MorphologyOutcome.semiDetached) ∧
    (p ≤ -PRECISSION → |s| < PRECISSION →
      estimate_morphology_sync p s = MorphologyOutcome.semiDetached) ∧
    (0 < p → p ≤ 1 → PRECISSION ≤ s → s ≤ 1 → p - s ≤ PRECISSION →
      estimate_morphology_sync p s = MorphologyOutcome.overContact) ∧
    (0 < p → p < 1 → p - s > PRECISSION →
      estimate_morphology_sync p s = MorphologyOutcome.valueError) ∧
    (0 < s → s < 1 → p - s > PRECISSION →
      estimate_morphology_sync p s = MorphologyOutcome.valueError) ∧
    (1 < p → estimate_morphology_sync p s = MorphologyOutcome.valueError) ∧
    (1 < s → estimate_morphology_sync p s = MorphologyOutcome.valueError) :=
  ⟨morph_detached_of p s,
   morph_semi_left_of p s,
   morph_semi_right_of p s,
   morph_overcontact_of p s,
   morph_reject_left_of p s,
   morph_reject_right_of p s,
   morph_reject_pgt1_of p s,
   morph_reject_sgt1_of p s⟩

/-- C1 witness: the amended theorem applied to the concrete pair of filling
factors (-1, -1), which the classifier marks detached. -/
theorem morphology_sync_amended_witness :
    estimate_morphology_sync (-1) (-1) = MorphologyOutcome.detached :=
  (morphology_sync_amended (-1) (-1)).1 (by norm_num [PRECISSION]) (by norm_num [PRECISSION])

/-! ### C5 theorems -/

/-- C5 counterexample: the eccentricity setter accepts the value 1 although
1 does not lie in the half-open interval [0, 1) the claim prescribes. -/
theorem eccentricity_counterexample :
    eccentricity_set 1 = Except.ok 1 ∧ ¬((1:ℚ) < 1) :=
  ⟨rfl, by norm_num⟩

/-- C5 (amended): assigning the eccentricity succeeds exactly when e lies in
the closed interval [0, 1]; the guard `e < 0 or e > 1` rejects only values
strictly below 0 or strictly above 1, so e = 1 is accepted. -/
theorem eccentricity_set_amended (e : ℚ) :
    (eccentricity_set e = Except.ok e ↔ 0 ≤ e ∧ e ≤ 1) ∧
    ((∃ msg, eccentricity_set e = Except.error msg) ↔ (e < 0 ∨ 1 < e)) := by
  unfold eccentricity_set
  split_ifs with h
  · constructor
    · constructor
      · intro hcontra
        simp at hcontra
      · intro hc
        exact False.elim (by rcases h with h | h <;> linarith [hc.1, hc.2])
    · exact ⟨fun _ => h, fun _ => ⟨_, rfl⟩⟩
  · push_neg at h
    constructor
    · exact ⟨fun _ => ⟨h.1, h.2⟩, fun _ => rfl⟩
    · constructor
      · rintro ⟨msg, hmsg⟩
        simp at hmsg
      · intro hc
        exact False.elim (by rcases hc with hc | hc <;> linarith [h.1, h.2])

/-- C5 witness: the amended theorem applied at e = 1, where the setter
accepts. -/
theorem eccentricity_set_amended_witness :
    eccentricity_set 1 = Except.ok 1 ↔ (0:ℚ) ≤ 1 ∧ (1:ℚ) ≤ 1 :=
  (eccentricity_set_amended 1).1

/-! ### C6 theorem -/

/-- C6: validate_binary_json returns True exactly when precisely one of the
standard and community schemas validates, raises ValidationError when
neither validates, and raises the distinct YouHaveNoIdeaError when both
validate. -/
theorem validate_binary_json_spec (std_valid community_valid : Bool) :
    (validate_binary_json std_valid community_valid = Except.ok true ↔
      std_valid ≠ community_valid) ∧
    (validate_binary_json false false = Except.error BinaryJsonError.validationError) ∧
    (validate_binary_json true true = Except.error BinaryJsonError.youHaveNoIdeaError) ∧
    BinaryJsonError.validationError ≠ BinaryJsonError.youHaveNoIdeaError := by
  refine ⟨?_, rfl, rfl, by decide⟩
  cases std_valid <;> cases community_valid <;> simp [validate_binary_json]

/-- C6 witness: the theorem applied to the case where only the standard
schema validates; the result is True. -/
theorem validate_binary_json_spec_witness :
    validate_binary_json true false = Except.ok true ↔ true ≠ false :=
  (validate_binary_json_spec true false).1

/-! ### C10 theorems -/

/-- C10: setting gravity_darkening with g in [0, 1] stores g into the
_gravity_darkenings attribute and leaves _gravity_darkening and
_backward_radius untouched; reading the property afterwards returns the
_backward_radius attribute (None if the backward radius was never set) and
not the assigned exponent; a value outside [0, 1] raises ValueError. -/
theorem gravity_darkening_property (s : StarState) (g : ℚ) :
    (0 ≤ g → g ≤ 1 →
      gravity_darkening_set s g = Except.ok { s with gravity_darkenings := some g } ∧
      gravity_darkening_get { s with gravity_darkenings := some g } = s.backward_radius ∧
      ({ s with gravity_darkenings := some g } : StarState).gravity_darkening_attr
        = s.gravity_darkening_attr) ∧
    (g < 0 ∨ 1 < g → gravity_darkening_set s g = Except.error StarError.valueError) := by
  constructor
  · intro h0 h1
    refine ⟨?_, rfl, rfl⟩
    unfold gravity_darkening_set
    rw [if_pos ⟨h0, h1⟩]
  · intro h
    unfold gravity_darkening_set
    rw [if_neg]
    rintro ⟨ha, hb⟩
    rcases h with h | h <;> linarith

/-! ### C3 theorems -/

/-- C3 counterexample: calculate_polar_radius accepts the root rho = 0 when
fsolve converged, although rho = 0 does not lie strictly inside the open
interval (0, min(30, lobe bound)) prescribed by the claim (shown here with
lobe bound 30, and 0 < rho already fails for every bound). -/
theorem equipotential_acceptance_counterexample :
    calculate_polar_radius true 0 = Except.ok 0 ∧
    ¬ claimed_acceptance_region 30 0 := by
  constructor
  · norm_num [calculate_polar_radius, radius_solution_check]
  · rintro ⟨h0, _⟩
    exact absurd h0 (by norm_num)

/-- C3 (amended): calculate_polar_radius and calculate_side_radius accept a
root exactly when fsolve converged (xtol 1e-12) and the root lies in the
closed interval [0, 30] (the constant 30 bound, with no lobe bound and with
the endpoints included), raising ValueError otherwise; the generic solver
used for spot points accepts exactly when fsolve converged, the root lies
strictly inside (0, 1) and the user condition holds, and it returns the
sentinel (nan, False) whenever the condition rejects. -/
theorem equipotential_acceptance_amended
    (fsolve_converged : Bool) (sol : ℚ) (condition : ℚ → Bool) :
    (calculate_polar_radius fsolve_converged sol = Except.ok sol ↔
      fsolve_converged = true ∧ 0 ≤ sol ∧ sol ≤ 30) ∧
    (calculate_side_radius fsolve_converged sol = Except.ok sol ↔
      fsolve_converged = true ∧ 0 ≤ sol ∧ sol ≤ 30) ∧
    (¬ (fsolve_converged = true ∧ 0 ≤ sol ∧ sol ≤ 30) →
      ∃ msg, calculate_polar_radius fsolve_converged sol = Except.error msg) ∧
    ((solver fsolve_converged sol condition).2 = true ↔
      fsolve_converged = true ∧ condition sol = true ∧ 0 < sol ∧ sol < 1) ∧
    (condition sol = false → solver fsolve_converged sol condition = (none, false)) := by
  have hradius : radius_solution_check fsolve_converged sol = true ↔
      fsolve_converged = true ∧ 0 ≤ sol ∧ sol ≤ 30 := by
    unfold radius_solution_check
    simp [Bool.and_eq_true, decide_eq_true_iff, and_comm]
  refine ⟨?_, ?_, ?_, ?_, ?_⟩
  · unfold calculate_polar_radius
    split_ifs with h
    · simp [hradius.mp h]
    · rw [hradius] at h
      simp [h]
  · unfold calculate_side_radius
    split_ifs with h
    · simp [hradius.mp h]
    · rw [hradius] at h
      simp [h]
  · intro h
    unfold calculate_polar_radius
    rw [if_neg]
    · exact ⟨_, rfl⟩
    · intro hcheck
      exact h (hradius.mp hcheck)
  · unfold solver solver_use
    split_ifs with h
    · constructor
      · intro huse
        have hparts : fsolve_converged = true ∧ (1 > sol ∧ sol > 0) := by
          simpa [Bool.and_eq_true, decide_eq_true_iff] using huse
        exact ⟨hparts.1, h, hparts.2.2, hparts.2.1⟩
      · rintro ⟨hf, _, hgt, hlt⟩
        show (fsolve_converged && decide (1 > sol ∧ sol > 0)) = true
        simp [hf, hlt, hgt]
    · constructor
      · intro hcontra
        simp at hcontra
      · rintro ⟨_, hcond, _⟩
        exact absurd hcond h
  · intro h
    unfold solver
    rw [if_neg]
    simp [h]

/-- C3 witness: the amended theorem applied to a converged solve with root 0
and the always-true condition; the polar radius accepts 0. -/
theorem equipotential_acceptance_amended_witness :
    calculate_polar_radius true 0 = Except.ok 0 ↔
      true = true ∧ (0:ℚ) ≤ 0 ∧ (0:ℚ) ≤ 30 :=
  (equipotential_acceptance_amended true 0 (fun _ => true)).1

/-! ### C4 theorems -/

/-- C4: the primary-frame Roche potential is invariant under reflection
across the xz plane (phi to -phi) and across the equator (theta to
pi - theta). -/
theorem potential_value_primary_symmetry
    (mass_ratio synchronicity radius d phi theta : ℝ) (_hradius : 0 < radius) :
    potential_value_primary mass_ratio synchronicity radius d (-phi) theta =
      potential_value_primary mass_ratio synchronicity radius d phi theta ∧
    potential_value_primary mass_ratio synchronicity radius d phi (Real.pi - theta) =
      potential_value_primary mass_ratio synchronicity radius d phi theta := by
  unfold potential_value_primary
  constructor
  · rw [Real.cos_neg]
  · rw [Real.sin_pi_sub, Real.cos_pi_sub]
    ring_nf

/-- C4 witness: the symmetry theorem applied at radius 1, separation 1,
phi = 1, theta = 1 for a system with mass ratio 1 and synchronicity 1. -/
theorem potential_value_primary_symmetry_witness :
    potential_value_primary 1 1 1 1 (-1) 1 = potential_value_primary 1 1 1 1 1 1 ∧
    potential_value_primary 1 1 1 1 1 (Real.pi - 1) = potential_value_primary 1 1 1 1 1 1 :=
  potential_value_primary_symmetry 1 1 1 1 1 1 (by norm_num)

/-! ### C7 theorems -/

/-- C7: when the clipped point set is degenerate (fewer than three distinct
points after deduplication), Polygon.intersection returns None and
pypex_poly_surface_area maps that entry to area 0, while surface_area of
any polygon hull is non-negative. -/
theorem degenerate_intersection_zero_area
    (candidates : List PypexPoint) (hull : List PypexPoint)
    (hdeg : (point_set_dedup candidates).length < 3) :
    intersection_of_candidates candidates = none ∧
    pypex_poly_surface_area [intersection_of_candidates candidates] = [0] ∧
    0 ≤ surface_area hull := by
  have hnone : intersection_of_candidates candidates = none := by
    unfold intersection_of_candidates
    rw [if_neg (by omega)]
  refine ⟨hnone, ?_, ?_⟩
  · simp [pypex_poly_surface_area, hnone]
  · unfold surface_area
    positivity

/-- C7 witness: the theorem applied to a degenerate candidate set (a zero
width triangle whose three clipped points collapse to two distinct points)
and a concrete non-degenerate triangle hull. -/
theorem degenerate_intersection_zero_area_witness :
    intersection_of_candidates [((0:ℚ),(0:ℚ)), (1,0), (0,0)] = none ∧
    pypex_poly_surface_area [intersection_of_candidates [((0:ℚ),(0:ℚ)), (1,0), (0,0)]] = [0] ∧
    0 ≤ surface_area [((0:ℚ),(0:ℚ)), (2,0), (0,3)] :=
  degenerate_intersection_zero_area [((0:ℚ),(0:ℚ)), (1,0), (0,0)]
    [((0:ℚ),(0:ℚ)), (2,0), (0,3)] (by decide)

/-! ### C8 theorems -/

/-- C8: for a non-empty phase array the span test holds exactly when
max(phases) - min(phases) >= 0.8, and when the span is below 0.8 the
resolver never selects the apsidal-line symmetry approximations (modes one
and two). -/
theorem phases_span_test_spec (phases : List ℚ) (mx mn : ℚ)
    (hmx : phases.max? = some mx) (hmn : phases.min? = some mn) :
    (phases_span_test phases = true ↔ mx - mn ≥ 8/10) ∧
    (mx - mn < 8/10 →
      ∀ try_appx a1 a2 a3,
        resolve_ecc_approximation_method try_appx (phases_span_test phases) a1 a2 a3
            ≠ ApproxMode.one ∧
        resolve_ecc_approximation_method try_appx (phases_span_test phases) a1 a2 a3
            ≠ ApproxMode.two) := by
  have hspan : phases_span_test phases = decide (mx - mn ≥ 8/10) := by
    unfold phases_span_test
    rw [hmx, hmn]
  constructor
  · rw [hspan]
    exact decide_eq_true_iff
  · intro hlt try_appx a1 a2 a3
    have hfalse : phases_span_test phases = false := by
      rw [hspan]
      simp [not_le.mpr hlt]
    rw [hfalse]
    unfold resolve_ecc_approximation_method
    simp only [Bool.and_false, Bool.false_and, Bool.false_eq_true, if_false]
    cases htry : (try_appx && a3) <;> simp

/-- C8 witness: the theorem applied to the phase list [0, 1/2], whose span
1/2 falls short of 0.8, so the span test is false there. -/
theorem phases_span_test_spec_witness :
    (phases_span_test [0, 1/2] = true ↔ (1/2 : ℚ) - 0 ≥ 8/10) ∧
    ((1/2 : ℚ) - 0 < 8/10 →
      ∀ try_appx a1 a2 a3,
        resolve_ecc_approximation_method try_appx (phases_span_test [0, 1/2]) a1 a2 a3
            ≠ ApproxMode.one ∧
        resolve_ecc_approximation_method try_appx (phases_span_test [0, 1/2]) a1 a2 a3
            ≠ ApproxMode.two) :=
  phases_span_test_spec [0, 1/2] (1/2) 0
    (by simp [List.max?, max_def]) (by simp [List.min?, min_def])

/-! ### C9 theorems -/

/-- C9: the spot point builder generates floor(rho_s / alpha_s) ring
latitudes with ring 0 the spot centre; ring 0 receives one azimuthal point
and ring k at least 1 receives exactly floor(2 pi k) azimuthal points,
uniformly spaced: the j-th azimuth of a ring with n points is j * (2 pi / n). -/
theorem spot_ring_counts (angular_diameter alpha lat x0 : ℝ)
    (hx : 0 < x0) :
    (spot_thetas lat angular_diameter alpha).length
        = (⌊angular_diameter / 2 / alpha⌋).toNat ∧
    (0 < (spot_num_radial angular_diameter alpha).toNat →
      (spot_thetas lat angular_diameter alpha).head? = some lat) ∧
    spot_num_azimuthal x0 0 = 1 ∧
    (∀ k : ℕ, 1 ≤ k → spot_num_azimuthal x0 k = ⌊2 * Real.pi * (k : ℝ)⌋) ∧
    (∀ k : ℕ, (spot_rot_angles x0 k).length = (spot_num_azimuthal x0 k).toNat) ∧
    (∀ k j : ℕ, j < (spot_num_azimuthal x0 k).toNat →
      (spot_rot_angles x0 k)[j]? =
        some ((j : ℝ) * (2 * Real.pi / ((spot_num_azimuthal x0 k).toNat : ℝ)))) := by
  refine ⟨?_, ?_, ?_, ?_, ?_, ?_⟩
  · unfold spot_thetas np_linspace spot_num_radial
    rw [List.length_map, List.length_range]
    have harg : angular_diameter * (1 / 2) / alpha = angular_diameter / 2 / alpha := by
      ring
    rw [harg]
  · intro hpos
    unfold spot_thetas np_linspace
    rcases Nat.exists_eq_add_of_lt hpos with ⟨m, hm⟩
    rw [hm]
    simp [List.range_succ_eq_map]
  · unfold spot_num_azimuthal
    simp
  · intro k hk
    unfold spot_num_azimuthal
    rw [if_neg (by omega)]
    congr 1
    field_simp
    ring
  · intro k
    unfold spot_rot_angles np_linspace_open
    rw [List.length_map, List.length_range]
  · intro k j hj
    unfold spot_rot_angles np_linspace_open
    rw [List.getElem?_map, List.getElem?_range hj, Option.map_some']
    congr 1
    ring

/-- C9 witness: the theorem applied at x0 = 1; in particular ring 1 receives
floor(2 pi) azimuthal points. -/
theorem spot_ring_counts_witness :
    (spot_thetas 0 1 (1/4)).length = (⌊(1:ℝ) / 2 / (1/4)⌋).toNat ∧
    (0 < (spot_num_radial 1 (1/4)).toNat → (spot_thetas 0 1 (1/4)).head? = some 0) ∧
    spot_num_azimuthal 1 0 = 1 ∧
    (∀ k : ℕ, 1 ≤ k → spot_num_azimuthal 1 k = ⌊2 * Real.pi * (k : ℝ)⌋) ∧
    (∀ k : ℕ, (spot_rot_angles 1 k).length = (spot_num_azimuthal 1 k).toNat) ∧
    (∀ k j : ℕ, j < (spot_num_azimuthal 1 k).toNat →
      (spot_rot_angles 1 k)[j]? =
        some ((j : ℝ) * (2 * Real.pi / ((spot_num_azimuthal 1 k).toNat : ℝ)))) :=
  spot_ring_counts 1 (1/4) 0 1 (by norm_num)


/-! ### C2: helper lemmas on potential_dx -/

lemma float_pow_three_halves_sq (x : ℝ) :
    float_pow_three_halves (x ^ 2) = |x| ^ 3 := by
  unfold float_pow_three_halves
  rw [Real.sqrt_sq_eq_abs]

lemma neg_cube_div (x : ℝ) (hx : x ≠ 0) : -(x / (-x)^3) = 1/x^2 := by
  rw [show (-x)^3 = -(x^3) by ring, div_neg, neg_neg, show x^3 = x * x^2 by ring,
    div_mul_cancel_left₀ hx, one_div]

lemma pos_cube_div (x : ℝ) (hx : x ≠ 0) : -(x / x^3) = -(1/x^2) := by
  rw [show x^3 = x * x^2 by ring, div_mul_cancel_left₀ hx, one_div]

lemma q_cube_div (c y : ℝ) (hy : y ≠ 0) : c * y / y^3 = c / y^2 := by
  rw [show y^3 = y^2 * y by ring, mul_comm c y, mul_comm (y^2) y, mul_div_mul_left _ _ hy]

lemma potential_dx_of_neg (q d x : ℝ) (hd : 0 < d) (hx : x < 0) :
    potential_dx q d x = 1 / x ^ 2 + q / (d - x) ^ 2 + (q + 1) * x - q / d ^ 2 := by
  have hx0 : x ≠ 0 := ne_of_lt hx
  have hdx : (0:ℝ) < d - x := by linarith
  have hdx0 : d - x ≠ 0 := ne_of_gt hdx
  unfold potential_dx
  rw [float_pow_three_halves_sq, float_pow_three_halves_sq, abs_of_neg hx, abs_of_pos hdx,
    neg_cube_div x hx0, q_cube_div q (d - x) hdx0]

lemma potential_dx_of_mid (q d x : ℝ) (hx0 : 0 < x) (hxd : x < d) :
    potential_dx q d x = -(1 / x ^ 2) + q / (d - x) ^ 2 + (q + 1) * x - q / d ^ 2 := by
  have hx0' : x ≠ 0 := ne_of_gt hx0
  have hdx : (0:ℝ) < d - x := by linarith
  have hdx0 : d - x ≠ 0 := ne_of_gt hdx
  unfold potential_dx
  rw [float_pow_three_halves_sq, float_pow_three_halves_sq, abs_of_pos hx0, abs_of_pos hdx,
    pos_cube_div x hx0', q_cube_div q (d - x) hdx0]

lemma potential_dx_of_right (q d x : ℝ) (hd : 0 < d) (hdx : d < x) :
    potential_dx q d x = -(1 / x ^ 2) - q / (x - d) ^ 2 + (q + 1) * x - q / d ^ 2 := by
  have hx0 : (0:ℝ) < x := lt_trans hd hdx
  have hx0' : x ≠ 0 := ne_of_gt hx0
  have hneg : d - x < 0 := by linarith
  have hdx0 : d - x ≠ 0 := ne_of_lt hneg
  unfold potential_dx
  rw [float_pow_three_halves_sq, float_pow_three_halves_sq, abs_of_pos hx0, abs_of_neg hneg,
    pos_cube_div x hx0', show (-(d - x))^3 = -((d - x)^3) by ring, div_neg,
    q_cube_div q (d - x) hdx0, show (d - x)^2 = (x - d)^2 by ring]
  ring

lemma potential_dx_mono_neg (q d : ℝ) (hq : 0 < q) (hd : 0 < d) {x y : ℝ}
    (hy : y < 0) (hxy : x < y) :
    potential_dx q d x < potential_dx q d y := by
  have hx : x < 0 := lt_trans hxy hy
  rw [potential_dx_of_neg q d x hd hx, potential_dx_of_neg q d y hd hy]
  have hy2 : (0:ℝ) < y ^ 2 := by nlinarith
  have hsq : y ^ 2 < x ^ 2 := by nlinarith
  have h1 : 1 / x ^ 2 < 1 / y ^ 2 := one_div_lt_one_div_of_lt hy2 hsq
  have hdy2 : (0:ℝ) < (d - y) ^ 2 := pow_pos (by linarith) 2
  have hsq2 : (d - y) ^ 2 < (d - x) ^ 2 := by nlinarith
  have h2 : q / (d - x) ^ 2 < q / (d - y) ^ 2 :=
    div_lt_div_of_pos_left hq hdy2 hsq2
  have h3 : (q + 1) * x < (q + 1) * y :=
    mul_lt_mul_of_pos_left hxy (by linarith)
  linarith

lemma potential_dx_mono_mid (q d : ℝ) (hq : 0 < q) {x y : ℝ}
    (hx : 0 < x) (hyd : y < d) (hxy : x < y) :
    potential_dx q d x < potential_dx q d y := by
  have hy : 0 < y := lt_trans hx hxy
  have hxd : x < d := lt_trans hxy hyd
  rw [potential_dx_of_mid q d x hx hxd, potential_dx_of_mid q d y hy hyd]
  have hx2 : (0:ℝ) < x ^ 2 := by positivity
  have hsq : x ^ 2 < y ^ 2 := by nlinarith
  have h1 : 1 / y ^ 2 < 1 / x ^ 2 := one_div_lt_one_div_of_lt hx2 hsq
  have hdy2 : (0:ℝ) < (d - y) ^ 2 := pow_pos (by linarith) 2
  have hsq2 : (d - y) ^ 2 < (d - x) ^ 2 := by nlinarith
  have h2 : q / (d - x) ^ 2 < q / (d - y) ^ 2 :=
    div_lt_div_of_pos_left hq hdy2 hsq2
  have h3 : (q + 1) * x < (q + 1) * y :=
    mul_lt_mul_of_pos_left hxy (by linarith)
  linarith

lemma potential_dx_mono_right (q d : ℝ) (hq : 0 < q) (hd : 0 < d) {x y : ℝ}
    (hx : d < x) (hxy : x < y) :
    potential_dx q d x < potential_dx q d y := by
  have hy : d < y := lt_trans hx hxy
  rw [potential_dx_of_right q d x hd hx, potential_dx_of_right q d y hd hy]
  have hx2 : (0:ℝ) < x ^ 2 := pow_pos (lt_trans hd hx) 2
  have hsq : x ^ 2 < y ^ 2 := by nlinarith
  have h1 : 1 / y ^ 2 < 1 / x ^ 2 := one_div_lt_one_div_of_lt hx2 hsq
  have hxd2 : (0:ℝ) < (x - d) ^ 2 := pow_pos (by linarith) 2
  have hsq2 : (x - d) ^ 2 < (y - d) ^ 2 := by nlinarith
  have h2 : q / (y - d) ^ 2 < q / (x - d) ^ 2 :=
    div_lt_div_of_pos_left hq hxd2 hsq2
  have h3 : (q + 1) * x < (q + 1) * y :=
    mul_lt_mul_of_pos_left hxy (by linarith)
  linarith

lemma root_unique_neg (q d : ℝ) (hq : 0 < q) (hd : 0 < d) {x y : ℝ}
    (hx : x < 0) (hy : y < 0)
    (hfx : potential_dx q d x = 0) (hfy : potential_dx q d y = 0) : x = y := by
  rcases lt_trichotomy x y with h | h | h
  · have := potential_dx_mono_neg q d hq hd hy h
    rw [hfx, hfy] at this
    exact absurd this (lt_irrefl 0)
  · exact h
  · have := potential_dx_mono_neg q d hq hd hx h
    rw [hfx, hfy] at this
    exact absurd this (lt_irrefl 0)

lemma root_unique_mid (q d : ℝ) (hq : 0 < q) {x y : ℝ}
    (hx : 0 < x) (hxd : x < d) (hy : 0 < y) (hyd : y < d)
    (hfx : potential_dx q d x = 0) (hfy : potential_dx q d y = 0) : x = y := by
  rcases lt_trichotomy x y with h | h | h
  · have := potential_dx_mono_mid q d hq hx hyd h
    rw [hfx, hfy] at this
    exact absurd this (lt_irrefl 0)
  · exact h
  · have := potential_dx_mono_mid q d hq hy hxd h
    rw [hfx, hfy] at this
    exact absurd this (lt_irrefl 0)

lemma root_unique_right (q d : ℝ) (hq : 0 < q) (hd : 0 < d) {x y : ℝ}
    (hx : d < x) (hy : d < y)
    (hfx : potential_dx q d x = 0) (hfy : potential_dx q d y = 0) : x = y := by
  rcases lt_trichotomy x y with h | h | h
  · have := potential_dx_mono_right q d hq hd hx h
    rw [hfx, hfy] at this
    exact absurd this (lt_irrefl 0)
  · exact h
  · have := potential_dx_mono_right q d hq hd hy h
    rw [hfx, hfy] at this
    exact absurd this (lt_irrefl 0)

lemma root_region (q d : ℝ) {x : ℝ} (hroot : IsLagrangeRoot q d x) :
    x < 0 ∨ (0 < x ∧ x < d) ∨ d < x := by
  rcases lt_trichotomy x 0 with h | h | h
  · exact Or.inl h
  · exact absurd h hroot.2.1
  · rcases lt_trichotomy x d with h2 | h2 | h2
    · exact Or.inr (Or.inl ⟨h, h2⟩)
    · exact absurd h2 hroot.2.2
    · exact Or.inr (Or.inr h2)

lemma lagrange_triple_regions (q d a b c : ℝ) (hq : 0 < q) (hd : 0 < d)
    (ht : ReturnedLagrangeTriple q d a b c) :
    (0 < b ∧ b < d) ∧ ((a < 0 ∧ d < c) ∨ (c < 0 ∧ d < a)) := by
  obtain ⟨hra, hrb, hrc, hab, hac, hbc, horder⟩ := ht
  rcases horder with ⟨_, hab2, hbc2⟩ | ⟨_, hba2, hcb2⟩
  · have hbmid : 0 < b ∧ b < d := by
      rcases root_region q d hrb with h | h | h
      · exact absurd (root_unique_neg q d hq hd (lt_trans hab2 h) h hra.1 hrb.1) hab
      · exact h
      · exact absurd (root_unique_right q d hq hd h (lt_trans h hbc2) hrb.1 hrc.1) hbc
    have haneg : a < 0 := by
      rcases root_region q d hra with h | h | h
      · exact h
      · exact absurd (root_unique_mid q d hq h.1 h.2 hbmid.1 hbmid.2 hra.1 hrb.1) hab
      · linarith [hbmid.2]
    have hcright : d < c := by
      rcases root_region q d hrc with h | h | h
      · linarith [hbmid.1]
      · exact absurd (root_unique_mid q d hq hbmid.1 hbmid.2 h.1 h.2 hrb.1 hrc.1) hbc
      · exact h
    exact ⟨hbmid, Or.inl ⟨haneg, hcright⟩⟩
  · have hbmid : 0 < b ∧ b < d := by
      rcases root_region q d hrb with h | h | h
      · exact absurd (root_unique_neg q d hq hd (lt_trans hcb2 h) h hrc.1 hrb.1).symm hbc
      · exact h
      · exact absurd (root_unique_right q d hq hd h (lt_trans h hba2) hrb.1 hra.1).symm hab
    have hcneg : c < 0 := by
      rcases root_region q d hrc with h | h | h
      · exact h
      · exact absurd (root_unique_mid q d hq h.1 h.2 hbmid.1 hbmid.2 hrc.1 hrb.1).symm hbc
      · linarith [hbmid.2]
    have haright : d < a := by
      rcases root_region q d hra with h | h | h
      · linarith [hbmid.1]
      · exact absurd (root_unique_mid q d hq hbmid.1 hbmid.2 h.1 h.2 hrb.1 hra.1).symm hab
      · exact h
    exact ⟨hbmid, Or.inr ⟨hcneg, haright⟩⟩

lemma potential_dx_one_half : potential_dx 1 1 (1/2 : ℝ) = 0 := by
  rw [potential_dx_of_mid 1 1 (1/2) (by norm_num) (by norm_num)]
  norm_num

lemma potential_dx_one_reflect (x : ℝ) :
    potential_dx 1 1 (1 - x) = -potential_dx 1 1 x := by
  unfold potential_dx
  rw [show (1 : ℝ) - (1 - x) = x by ring]
  rw [float_pow_three_halves_sq, float_pow_three_halves_sq]
  ring

lemma lagrange_triple_q1 (a b c : ℝ) (ht : ReturnedLagrangeTriple 1 1 a b c) :
    b = 1/2 ∧ a + c = 1 ∧ c < 0 ∧ 1 < a := by
  have hreg := lagrange_triple_regions 1 1 a b c one_pos one_pos ht
  obtain ⟨hra, hrb, hrc, hab, hac, hbc, horder⟩ := ht
  have hdesc : c < b ∧ b < a := by
    rcases horder with ⟨hlt, _, _⟩ | ⟨_, hba, hcb⟩
    · exact absurd hlt (lt_irrefl 1)
    · exact ⟨hcb, hba⟩
  have hcneg : c < 0 ∧ 1 < a := by
    rcases hreg.2 with ⟨haneg, hcr⟩ | h
    · exfalso
      have h1 := hreg.1.1
      linarith [hdesc.1, hdesc.2]
    · exact h
  have hb : b = 1/2 :=
    root_unique_mid 1 1 one_pos hreg.1.1 hreg.1.2 (by norm_num) (by norm_num)
      hrb.1 potential_dx_one_half
  have hrefl : potential_dx 1 1 (1 - c) = 0 := by
    rw [potential_dx_one_reflect, hrc.1, neg_zero]
  have hac2 : a = 1 - c := by
    apply root_unique_right 1 1 one_pos one_pos hcneg.2 (by linarith [hcneg.1]) hra.1 hrefl
  exact ⟨hb, by linarith [hac2], hcneg.1, hcneg.2⟩

lemma exists_negative_lagrange_root :
    ∃ x : ℝ, x ∈ Set.Icc (-1 : ℝ) (-(1/2)) ∧ potential_dx 1 1 x = 0 := by
  have hle : (-1 : ℝ) ≤ -(1/2) := by norm_num
  have heq : Set.EqOn (potential_dx 1 1)
      (fun x : ℝ => 1 / x ^ 2 + 1 / (1 - x) ^ 2 + 2 * x - 1)
      (Set.Icc (-1 : ℝ) (-(1/2))) := by
    intro x hx
    have hxneg : x < 0 := lt_of_le_of_lt hx.2 (by norm_num)
    rw [potential_dx_of_neg 1 1 x one_pos hxneg]
    norm_num
  have hcont : ContinuousOn (fun x : ℝ => 1 / x ^ 2 + 1 / (1 - x) ^ 2 + 2 * x - 1)
      (Set.Icc (-1 : ℝ) (-(1/2))) := by
    apply ContinuousOn.sub
    apply ContinuousOn.add
    apply ContinuousOn.add
    · apply ContinuousOn.div continuousOn_const
        ((continuous_pow 2).continuousOn)
      intro x hx
      have hxneg : x < 0 := lt_of_le_of_lt hx.2 (by norm_num)
      exact pow_ne_zero 2 (ne_of_lt hxneg)
    · apply ContinuousOn.div continuousOn_const
        (((continuous_const.sub continuous_id).pow 2).continuousOn)
      intro x hx
      have hxneg : x < 0 := lt_of_le_of_lt hx.2 (by norm_num)
      have hpos : (0:ℝ) < 1 - x := by linarith
      exact pow_ne_zero 2 (ne_of_gt hpos)
    · exact (continuous_const.mul continuous_id).continuousOn
    · exact continuousOn_const
  have hcont2 : ContinuousOn (potential_dx 1 1) (Set.Icc (-1 : ℝ) (-(1/2))) :=
    hcont.congr heq
  have hva : potential_dx 1 1 (-1) = -(7/4) := by
    rw [potential_dx_of_neg 1 1 (-1) one_pos (by norm_num)]
    norm_num
  have hvb : potential_dx 1 1 (-(1/2)) = 22/9 := by
    rw [potential_dx_of_neg 1 1 (-(1/2)) one_pos (by norm_num)]
    norm_num
  have hsub := intermediate_value_Icc hle hcont2
  have hmem : (0:ℝ) ∈ Set.Icc (potential_dx 1 1 (-1)) (potential_dx 1 1 (-(1/2))) := by
    rw [hva, hvb]
    constructor <;> norm_num
  obtain ⟨x, hxmem, hfx⟩ := hsub hmem
  exact ⟨x, hxmem, hfx⟩

lemma np_linspace_100 (a b : ℝ) :
    (np_linspace a b 100).length = 100 ∧
    (np_linspace a b 100).head? = some a ∧
    (np_linspace a b 100).getLast? = some b := by
  refine ⟨?_, ?_, ?_⟩
  · unfold np_linspace
    rw [List.length_map, List.length_range]
  · unfold np_linspace
    rw [List.head?_eq_getElem?, List.getElem?_map, List.getElem?_range (by norm_num : 0 < 100)]
    simp
  · unfold np_linspace
    rw [List.getLast?_eq_getElem?, List.length_map, List.length_range]
    rw [List.getElem?_map, List.getElem?_range (by norm_num : 100 - 1 < 100)]
    norm_num

/-! ### C2 theorems -/

/-- C2 counterexample: for q = 1 (circular orbit, d = 1) a returned triple
exists, with outer points at x0 < 0 and 1 - x0 > 1 and L1 = 1/2, and every
returned triple [L3, L1, L2] has |L3| different from |L2|: the x values are
measured from the primary centre, so for q = 1 the outer points are
symmetric about the midpoint d/2 of the centres, not about the origin;
indeed |L3| - |L2| = 1 for every such triple. -/
theorem lagrangian_points_counterexample :
    (∃ a b c : ℝ, ReturnedLagrangeTriple 1 1 a b c) ∧
    (∀ a b c : ℝ, ReturnedLagrangeTriple 1 1 a b c → |a| ≠ |c|) := by
  constructor
  · obtain ⟨x, hxmem, hfx⟩ := exists_negative_lagrange_root
    have hxneg : x < 0 := lt_of_le_of_lt hxmem.2 (by norm_num)
    have hxlow : (-1:ℝ) ≤ x := hxmem.1
    refine ⟨1 - x, 1/2, x, ?_, ?_, ?_, ?_, ?_, ?_, ?_⟩
    · refine ⟨?_, ?_, ?_⟩
      · rw [potential_dx_one_reflect, hfx, neg_zero]
      · intro hcontra
        rw [sub_eq_zero] at hcontra
        linarith [hcontra]
      · intro hcontra
        have hx0 : x = 0 := by linarith [sub_eq_iff_eq_add.mp hcontra]
        linarith
    · exact ⟨potential_dx_one_half, by norm_num, by norm_num⟩
    · exact ⟨hfx, ne_of_lt hxneg, by intro h; rw [h] at hxneg; linarith⟩
    · intro h; linarith [h]
    · intro h; linarith [h]
    · intro h; linarith [h]
    · exact Or.inr ⟨le_refl 1, by linarith, by linarith⟩
  · intro a b c ht
    have hq := lagrange_triple_q1 a b c ht
    have ha : |a| = a := abs_of_pos (by linarith [hq.2.2.2])
    have hc : |c| = -c := abs_of_neg hq.2.2.1
    rw [ha, hc]
    intro hcontra
    have hsum : a + c = 0 := by linarith [hcontra]
    linarith [hq.2.1]

/-- C2 (amended): lagrangian_points scans 100 samples of x in
[-3(1-e), 3(1-e)], deduplicates roots and returns three distinct roots of
potential_dx ordered ascending for q < 1 and descending otherwise; the L1
entry (list middle) lies strictly between the two stellar centres and the
outer entries lie outside the segment between the centres; for q = 1 and
d = 1 the list satisfies |L1| = d/2 and L3 + L2 = d (the outer points are
symmetric about the midpoint of the centres, not about the primary), hence
|L3| is not equal to |L2|. -/
theorem lagrangian_points_amended (q d e : ℝ) (hq : 0 < q) (hd : 0 < d) :
    (lagrangian_scan_xs e).length = 100 ∧
    (lagrangian_scan_xs e).head? = some (-(periastron_distance e * 3)) ∧
    (lagrangian_scan_xs e).getLast? = some (periastron_distance e * 3) ∧
    (∀ a b c : ℝ, ReturnedLagrangeTriple q d a b c →
      (0 < b ∧ b < d) ∧ ((a < 0 ∨ d < a) ∧ (c < 0 ∨ d < c)) ∧
      (q = 1 → d = 1 → b = d / 2 ∧ a + c = d ∧ |a| ≠ |c|)) := by
  have hlin := np_linspace_100 (-(periastron_distance e * 3)) (periastron_distance e * 3)
  refine ⟨hlin.1, hlin.2.1, hlin.2.2, ?_⟩
  intro a b c ht
  have hreg := lagrange_triple_regions q d a b c hq hd ht
  refine ⟨hreg.1, ?_, ?_⟩
  · rcases hreg.2 with ⟨h1, h2⟩ | ⟨h1, h2⟩
    · exact ⟨Or.inl h1, Or.inr h2⟩
    · exact ⟨Or.inr h2, Or.inl h1⟩
  · intro hq1 hd1
    subst hq1
    subst hd1
    have hstruct := lagrange_triple_q1 a b c ht
    refine ⟨by rw [hstruct.1], hstruct.2.1, ?_⟩
    have ha : |a| = a := abs_of_pos (by linarith [hstruct.2.2.2])
    have hc : |c| = -c := abs_of_neg hstruct.2.2.1
    rw [ha, hc]
    intro hcontra
    have hsum : a + c = 0 := by linarith [hcontra]
    linarith [hstruct.2.1]

/-- C2 witness: the amended theorem applied at q = 1, d = 1, e = 0. -/
theorem lagrangian_points_amended_witness :
    (lagrangian_scan_xs 0).length = 100 ∧
    (lagrangian_scan_xs 0).head? = some (-(periastron_distance 0 * 3)) ∧
    (lagrangian_scan_xs 0).getLast? = some (periastron_distance 0 * 3) ∧
    (∀ a b c : ℝ, ReturnedLagrangeTriple 1 1 a b c →
      (0 < b ∧ b < 1) ∧ ((a < 0 ∨ 1 < a) ∧ (c < 0 ∨ 1 < c)) ∧
      ((1:ℝ) = 1 → (1:ℝ) = 1 → b = 1 / 2 ∧ a + c = 1 ∧ |a| ≠ |c|)) :=
  lagrangian_points_amended 1 1 0 (by norm_num) (by norm_num)

/-- C10 witness: the theorem applied to a star whose backward radius is 7 and
the in-range assignment g = 1/2; the set-then-get returns some 7, the
backward radius, not the assigned 1/2. -/
theorem gravity_darkening_property_witness :
    gravity_darkening_set ⟨some 7, none, none⟩ (1/2) =
      Except.ok { (⟨some 7, none, none⟩ : StarState) with gravity_darkenings := some (1/2) } ∧
    gravity_darkening_get
      { (⟨some 7, none, none⟩ : StarState) with gravity_darkenings := some (1/2) } =
      (⟨some 7, none, none⟩ : StarState).backward_radius ∧
    ({ (⟨some 7, none, none⟩ : StarState) with gravity_darkenings := some (1/2) }
      : StarState).gravity_darkening_attr =
      (⟨some 7, none, none⟩ : StarState).gravity_darkening_attr :=
  (gravity_darkening_property ⟨some 7, none, none⟩ (1/2)).1 (by norm_num) (by norm_num)

end Elisa
